import Mathlib

/-!
# Verification of the zig-installer Version Lifecycle Manager

Shallow embedding of the core of `exilesprx/zig-installer`
(`internal/installer/cleanup.go`, the switch engine, and the
system-installation detector in `internal/config`), together with proofs
of the spec's claims about it.

Strings are processed through explicit `List Char` helpers so that every
definition is executable and kernel-reducible on concrete inputs.
Filesystem effects (directory listings, symlink reads, stat results,
subprocess output) are modelled as explicit inputs in a `World` record;
each Go function becomes a pure Lean function of the world.
-/

namespace ZigInstall

/-! ## Character-list string helpers

Models of the Go standard-library string operations the component uses:
`strings.Split` (on a single-character separator), `strings.Join`,
`strings.HasPrefix`, `strings.Contains`, `strings.TrimSpace`,
`filepath.Base` and `filepath.Dir` (for already-clean paths, which is the
only way the component builds paths: `filepath.Join(dir, name)` on a clean
absolute directory and a simple entry name is plain concatenation with a
separator).
-/

/-- Model of Go `strings.Split(s, string(c))`: `splitOnChar c "" = [""]`,
and separators delimit (possibly empty) fields. -/
def splitOnChar (c : Char) : List Char → List (List Char)
  | [] => [[]]
  | x :: xs =>
    if x = c then [] :: splitOnChar c xs
    else
      match splitOnChar c xs with
      | [] => [[x]]
      | y :: ys => (x :: y) :: ys

/-- Model of Go `strings.Join(parts, sep)`. -/
def joinWith (sep : List Char) : List (List Char) → List Char
  | [] => []
  | [x] => x
  | x :: y :: ys => x ++ sep ++ joinWith sep (y :: ys)

/-- Model of Go `strings.HasPrefix(s, p)` (arguments: the candidate
leading segment first, then the full string). -/
def leadsWith : List Char → List Char → Bool
  | [], _ => true
  | _ :: _, [] => false
  | p :: ps, c :: cs => p = c && leadsWith ps cs

/-- Model of Go `strings.Contains(s, sub)`. -/
def containsSub : List Char → List Char → Bool
  | s, sub =>
    leadsWith sub s ||
      match s with
      | [] => false
      | _ :: t => containsSub t sub

/-- Whitespace as trimmed by Go `strings.TrimSpace`. -/
def isSpaceChar (c : Char) : Bool :=
  c = ' ' || c = '\n' || c = '\t' || c = '\r'

/-- Model of Go `strings.TrimSpace`. -/
def trimSpace (s : List Char) : List Char :=
  ((s.dropWhile isSpaceChar).reverse.dropWhile isSpaceChar).reverse

/-- Model of Go `filepath.Base` for clean paths without a trailing slash:
the segment after the final `/`. -/
def basename (path : String) : List Char :=
  (splitOnChar '/' path.toList).getLastD []

/-- Model of Go `filepath.Dir` for clean paths: everything before the
final `/` (`"."` when there is no slash, `"/"` for a direct child of the
root). -/
def dirname (path : String) : String :=
  let parts := splitOnChar '/' path.toList
  if parts.length ≤ 1 then "."
  else
    let d := joinWith ['/'] parts.dropLast
    if d = [] then "/" else String.mk d

/-- Model of Go `filepath.Join(dir, name)` for a clean directory path and
a simple entry name. -/
def joinPath (dir name : String) : String :=
  dir ++ "/" ++ name

/-! ### Lemmas about split and join -/

theorem splitOnChar_ne_nil (c : Char) (l : List Char) : splitOnChar c l ≠ [] := by
  induction l with
  | nil => simp [splitOnChar]
  | cons x xs ih =>
    by_cases h : x = c
    · simp [splitOnChar, h]
    · simp only [splitOnChar, if_neg h]
      cases hs : splitOnChar c xs with
      | nil => simp
      | cons y ys => simp

/-- Joining with the separator undoes splitting on it. -/
theorem joinWith_splitOnChar (c : Char) (l : List Char) :
    joinWith [c] (splitOnChar c l) = l := by
  induction l with
  | nil => simp [splitOnChar, joinWith]
  | cons x xs ih =>
    by_cases h : x = c
    · subst h
      simp only [splitOnChar, if_pos rfl]
      cases hs : splitOnChar x xs with
      | nil => exact absurd hs (splitOnChar_ne_nil x xs)
      | cons y ys =>
        rw [hs] at ih
        simp [joinWith, ih]
    · simp only [splitOnChar, if_neg h]
      cases hs : splitOnChar c xs with
      | nil => exact absurd hs (splitOnChar_ne_nil c xs)
      | cons y ys =>
        rw [hs] at ih
        cases ys with
        | nil => simp_all [joinWith]
        | cons z zs => simp_all [joinWith]

theorem joinWith_cons (sep x : List Char) (ys : List (List Char)) (h : ys ≠ []) :
    joinWith sep (x :: ys) = x ++ sep ++ joinWith sep ys := by
  cases ys with
  | nil => exact absurd rfl h
  | cons y ys' => rfl

theorem joinWith_append (sep : List Char) (a b : List (List Char))
    (ha : a ≠ []) (hb : b ≠ []) :
    joinWith sep (a ++ b) = joinWith sep a ++ sep ++ joinWith sep b := by
  induction a with
  | nil => exact absurd rfl ha
  | cons x xs ih =>
    cases xs with
    | nil =>
      rw [List.singleton_append, joinWith_cons sep x b hb]
      simp [joinWith]
    | cons x' xs' =>
      rw [List.cons_append, joinWith_cons sep x ((x' :: xs') ++ b) (by simp),
        joinWith_cons sep x (x' :: xs') (by simp), ih (by simp)]
      simp [List.append_assoc]

/-- A list without the separator splits to a single field. -/
theorem splitOnChar_eq_single (c : Char) (l : List Char) (h : c ∉ l) :
    splitOnChar c l = [l] := by
  induction l with
  | nil => simp [splitOnChar]
  | cons x xs ih =>
    have hx : ¬x = c := fun he => h (he ▸ List.mem_cons_self x xs)
    have hxs : c ∉ xs := fun hm => h (List.mem_cons_of_mem _ hm)
    simp [splitOnChar, hx, ih hxs]

/-! ## Path Codec (`extractVersionFromPath` in cleanup.go) -/

/-- Embedding of `extractVersionFromPath` (cleanup.go): takes
`filepath.Base(path)`, splits it on `-`; with fewer than 4 segments
returns `""`, otherwise rejoins everything after the third hyphen. -/
def extractVersionFromPath (path : String) : String :=
  let base := basename path
  let parts := splitOnChar '-' base
  if parts.length < 4 then ""
  else String.mk (joinWith ['-'] (parts.drop 3))

/-! ## Data model (`VersionInfo` in cleanup.go)

`time.Time` values are modelled as integers (nanoseconds since the
epoch); `t1.After(t2)` is `t1 > t2`. Byte sizes (`int64`) are `Int`. -/

structure VersionInfo where
  version : String
  path : String
  size : Int
  installDate : Int
  isCurrent : Bool
deriving Repr, DecidableEq

/-! ## Filesystem model

The Go code only observes the filesystem through a fixed set of calls;
a `World` records the outcome of each. Directory subtrees (used by
`CalculateDirectorySize` via `filepath.Walk`) are explicit trees whose
nodes either report a size or fail when visited. -/

/-- A filesystem subtree as visited by `filepath.Walk`: regular files
with a size, directories with children, or a node whose visit reports an
error (the `err != nil` callback case). -/
inductive FileTree where
  | file (size : Int)
  | broken
  | dir (children : List FileTree)
deriving Repr

/-- Result of `os.Readlink` on the active link `binDir/zig`:
the path does not exist, the read fails for another reason, or the link
content is returned (even if its target dangles). -/
inductive ReadlinkResult where
  | notExist
  | otherError
  | ok (target : String)
deriving Repr, DecidableEq

/-- One entry of `os.ReadDir(zigDir)`: its name, whether it is a
directory, and the result of `entry.Info()` (`none` when `Info` fails,
otherwise the modification time). -/
structure DirEntry where
  name : String
  isDir : Bool
  modTime : Option Int
deriving Repr, DecidableEq

/-- Observable mutations of the active link performed by the switch
engine. -/
inductive Event where
  | removedLink
  | createdLink (target : String)
deriving Repr, DecidableEq

/-- The state the component reads and mutates. `readlinkZig` is the
state of the active link at `binDir/zig` (shared by `os.Readlink`,
`os.Lstat`, `os.Remove` and `os.Symlink` on that path); `entries` is the
result of `os.ReadDir(zigDir)`; `fs` gives the subtree walked by
`CalculateDirectorySize` for each candidate path; `binaryExists` is
whether `os.Stat` succeeds on a given binary path; `removeOk` and
`symlinkOk` are the outcomes of `os.Remove` and `os.Symlink`;
`runOutput` is the combined output of running `zig version` (`none` when
the subprocess fails); `events` logs link mutations. -/
structure World where
  entries : Except Unit (List DirEntry)
  readlinkZig : ReadlinkResult
  fs : String → FileTree
  binaryExists : String → Bool
  removeOk : Bool
  symlinkOk : Bool
  runOutput : Option String
  events : List Event

/-! ## `CalculateDirectorySize` (cleanup.go)

`filepath.Walk` aborts on the first error (the callback returns `err`
unchanged), and sums `info.Size()` over non-directory entries. -/

mutual

/-- Embedding of `CalculateDirectorySize`'s walk over one subtree. -/
def walkSize : FileTree → Except Unit Int
  | .file s => .ok s
  | .broken => .error ()
  | .dir cs => walkSizeList cs

/-- The walk over a directory's children, left to right, aborting on the
first error. -/
def walkSizeList : List FileTree → Except Unit Int
  | [] => .ok 0
  | t :: ts =>
    match walkSize t with
    | .error e => .error e
    | .ok s =>
      match walkSizeList ts with
      | .error e => .error e
      | .ok s' => .ok (s + s')

end

/-- Embedding of `CalculateDirectorySize(path)`. -/
def CalculateDirectorySize (w : World) (path : String) : Except Unit Int :=
  walkSize (w.fs path)

mutual

/-- A subtree contains a node whose visit fails. -/
def hasBroken : FileTree → Bool
  | .file _ => false
  | .broken => true
  | .dir cs => hasBrokenList cs

/-- Some child subtree contains a failing node. -/
def hasBrokenList : List FileTree → Bool
  | [] => false
  | t :: ts => hasBroken t || hasBrokenList ts

end

/-! ## `GetCurrentVersion` (cleanup.go)

Reads the symlink `binDir/zig`; a missing link yields `("", nil)`, any
other read error is returned to the caller, and a successful read
decodes the parent directory of the target. The `binDir` argument is
folded into `World.readlinkZig`, which models the link at that fixed
path. -/

def GetCurrentVersion (r : ReadlinkResult) : Except Unit String :=
  match r with
  | .notExist => .ok ""
  | .otherError => .error ()
  | .ok target => .ok (extractVersionFromPath (dirname target))

/-- The current version as `ScanInstalledVersions` computes it: a failed
`GetCurrentVersion` is logged and replaced by `""`. -/
def currentVersionOrEmpty (w : World) : String :=
  match GetCurrentVersion w.readlinkZig with
  | .error _ => ""
  | .ok v => v

/-! ## `ScanInstalledVersions` (cleanup.go) -/

/-- The per-entry body of the loop in `ScanInstalledVersions`:
skips non-directories, names not starting with `zig-`, names whose
decode is empty, and entries whose `Info()` fails; a failing
`CalculateDirectorySize` is replaced by size `0` (`// Continue even if
we can't get size`). -/
def scanEntry (w : World) (zigDir currentVersion : String) (e : DirEntry) :
    Option VersionInfo :=
  if !e.isDir then none
  else if !(leadsWith "zig-".toList e.name.toList) then none
  else
    let path := joinPath zigDir e.name
    let version := extractVersionFromPath path
    if version = "" then none
    else
      match e.modTime with
      | none => none
      | some mt =>
        let size : Int :=
          match CalculateDirectorySize w path with
          | .error _ => 0
          | .ok s => s
        some { version := version, path := path, size := size,
               installDate := mt, isCurrent := version == currentVersion }

/-- The `sort.Slice` comparator `InstallDate.After`: insertion of one
record into a list sorted by install date descending. -/
def insertByDate (v : VersionInfo) : List VersionInfo → List VersionInfo
  | [] => [v]
  | w :: ws =>
    if v.installDate > w.installDate then v :: w :: ws
    else w :: insertByDate v ws

/-- Sorting by install date, newest first (`sort.Slice` with
`InstallDate.After`; for the distinct timestamps the claims involve the
result is the unique descending order). -/
def sortByDateDesc (l : List VersionInfo) : List VersionInfo :=
  l.foldr insertByDate []

/-- Embedding of `ScanInstalledVersions(zigDir, binDir)`: fails only
when `os.ReadDir(zigDir)` fails; otherwise builds a record per accepted
entry and sorts by install date descending. -/
def ScanInstalledVersions (w : World) (zigDir : String) :
    Except Unit (List VersionInfo) :=
  match w.entries with
  | .error _ => .error ()
  | .ok es =>
    let currentVersion := currentVersionOrEmpty w
    .ok (sortByDateDesc (es.filterMap (scanEntry w zigDir currentVersion)))

/-! ## `filterVersionsToKeep` (cleanup.go) — the retention planner -/

/-- The loop of `filterVersionsToKeep`: walk the sorted records with a
`kept` counter, always skipping the current version, keeping the first
`keepLast` non-current records and returning the rest for removal. -/
def keepLoop (keepLast : Int) : List VersionInfo → Int → List VersionInfo
  | [], _ => []
  | v :: vs, kept =>
    if v.isCurrent then keepLoop keepLast vs kept
    else if kept < keepLast then keepLoop keepLast vs (kept + 1)
    else v :: keepLoop keepLast vs kept

/-- Embedding of `filterVersionsToKeep(versions, keepLast)`: returns the
records to REMOVE. `keepLast <= 0` removes nothing; otherwise the input
is (re-)sorted newest first and walked by `keepLoop`. -/
def filterVersionsToKeep (versions : List VersionInfo) (keepLast : Int) :
    List VersionInfo :=
  if keepLast ≤ 0 then []
  else keepLoop keepLast (sortByDateDesc versions) 0

/-! ## Switch engine (`SwitchToVersion`, `UpdateZigSymlink`,
`VerifySwitch`) -/

inductive SwitchError where
  | scanFailed
  | noVersions
  | onlyOne
  | notInstalled
  | artifactMissing
  | removeFailed
  | symlinkFailed
  | verifyNoLink
  | verifyExecFailed
  | verifyMismatch
deriving Repr, DecidableEq

/-- The lookup loop in `SwitchToVersion`: first record whose version
matches the requested one. -/
def findTarget : List VersionInfo → String → Option VersionInfo
  | [], _ => none
  | v :: vs, target =>
    if v.version = target then some v else findTarget vs target

/-- Embedding of `UpdateZigSymlink(versionPath, binDir, version, ...)`:
fails with `artifactMissing` when `os.Stat` on `versionPath/zig` fails;
otherwise removes the existing link (if `os.Lstat` succeeds) and creates
the new one. Returns the possibly-mutated world and the error, if any. -/
def UpdateZigSymlink (w : World) (versionPath : String) :
    World × Option SwitchError :=
  let zigBinPath := joinPath versionPath "zig"
  if !(w.binaryExists zigBinPath) then (w, some .artifactMissing)
  else
    let step1 : World × Option SwitchError :=
      match w.readlinkZig with
      | .notExist => (w, none)
      | _ =>
        if w.removeOk then
          ({ w with readlinkZig := .notExist,
                    events := w.events ++ [.removedLink] }, none)
        else (w, some .removeFailed)
    match step1 with
    | (w1, some e) => (w1, some e)
    | (w1, none) =>
      if w1.symlinkOk then
        ({ w1 with readlinkZig := .ok zigBinPath,
                   events := w1.events ++ [.createdLink zigBinPath] }, none)
      else (w1, some .symlinkFailed)

/-- Embedding of `VerifySwitch(binDir, expectedVersion, ...)`: requires
the link to exist, the subprocess to run, and its trimmed output to
contain the expected version as a substring. Performs no mutation. -/
def VerifySwitch (w : World) (expectedVersion : String) :
    Option SwitchError :=
  match w.readlinkZig with
  | .notExist => some .verifyNoLink
  | _ =>
    match w.runOutput with
    | none => some .verifyExecFailed
    | some out =>
      if containsSub (trimSpace out.toList) expectedVersion.toList then none
      else some .verifyMismatch

/-- Embedding of `SwitchToVersion(cfg, ..., targetVersion)`: scan, refuse
zero or one installed versions, find the target, then update the link
and verify. (`GetCurrentVersion` is also consulted, but only to print an
"already active, recreating" notice — it does not change control flow.) -/
def SwitchToVersion (w : World) (zigDir targetVersion : String) :
    World × Option SwitchError :=
  match ScanInstalledVersions w zigDir with
  | .error _ => (w, some .scanFailed)
  | .ok versions =>
    if versions.length = 0 then (w, some .noVersions)
    else if versions.length = 1 then (w, some .onlyOne)
    else
      match findTarget versions targetVersion with
      | none => (w, some .notInstalled)
      | some tv =>
        match UpdateZigSymlink w tv.path with
        | (w1, some e) => (w1, some e)
        | (w1, none) =>
          match VerifySwitch w1 targetVersion with
          | some e => (w1, some e)
          | none => (w1, none)

/-! ## System-Installation Detector (`DetectSystemInstallation`,
internal/config) -/

/-- Environment read by the detector: `runtime.GOOS`, whether `os.Stat`
succeeds and reports a directory, whether `os.ReadDir` succeeds with at
least one entry, whether `os.Lstat` succeeds, and the result of
`os.Readlink` (`none` when it fails). -/
structure DetectEnv where
  goos : String
  statIsDir : String → Bool
  readDirNonEmpty : String → Bool
  lstatOk : String → Bool
  readlink : String → Option String

/-- Embedding of `GetSystemZigDirs()`. -/
def GetSystemZigDirs (goos : String) : List String :=
  if goos = "darwin" then ["/usr/local/zig", "/opt/zig"]
  else ["/opt/zig", "/usr/local/zig"]

/-- The fixed legacy symlink paths inspected by the detector. -/
def systemBinLinks : List String := ["/usr/local/bin/zig", "/usr/local/bin/zls"]

/-- A readlink target rooted under one of the legacy roots. -/
def legacyTarget (target : String) : Bool :=
  leadsWith "/opt/".toList target.toList ||
    leadsWith "/usr/local/".toList target.toList

/-- First loop of `DetectSystemInstallation`: first system directory
that exists, is a directory, and lists at least one entry. -/
def detectDirs (env : DetectEnv) : List String → Option String
  | [] => none
  | d :: ds =>
    if env.statIsDir d && env.readDirNonEmpty d then some d
    else detectDirs env ds

/-- Second loop of `DetectSystemInstallation`: first legacy symlink that
exists (`Lstat`), whose `Readlink` succeeds and whose target is rooted
under a legacy root; returns the parent directory of that target. -/
def detectLinks (env : DetectEnv) : List String → Option String
  | [] => none
  | l :: ls =>
    if env.lstatOk l then
      match env.readlink l with
      | some target =>
        if legacyTarget target then some (dirname target)
        else detectLinks env ls
      | none => detectLinks env ls
    else detectLinks env ls

/-- Embedding of `DetectSystemInstallation()`. -/
def DetectSystemInstallation (env : DetectEnv) : String × Bool :=
  match detectDirs env (GetSystemZigDirs env.goos) with
  | some d => (d, true)
  | none =>
    match detectLinks env systemBinLinks with
    | some p => (p, true)
    | none => ("", false)

/-! ## Facts used by several claims -/

theorem leadsWith_nil (s : List Char) : leadsWith [] s = true := by
  simp [leadsWith]

theorem take_append_drop_ne_nil {α : Type} (l : List α) (n : Nat)
    (h : n + 1 ≤ l.length) : l.drop n ≠ [] := by
  intro hd
  have := List.length_drop n l
  rw [hd] at this
  simp at this
  omega

/-- `basename` of a slash-free name is the name itself. -/
theorem basename_eq_self (name : String) (h : '/' ∉ name.toList) :
    basename name = name.toList := by
  unfold basename
  rw [splitOnChar_eq_single '/' name.toList h]
  rfl

end ZigInstall

namespace ZigInstall

/-- **C8.** For every directory name following the naming convention —
at least 4 hyphen-delimited segments, i.e. the 3 fixed prefix segments
(`zig-{os}-{arch}`) before the version tail — decoding with
`extractVersionFromPath` and reconstructing the name from the fixed
prefix (the first three segments) and the decoded version yields the
original name, including when the version itself contains hyphens. -/
theorem decode_reconstruct_roundtrip (name : String)
    (hslash : '/' ∉ name.toList)
    (hlen : 4 ≤ (splitOnChar '-' name.toList).length) :
    String.mk (joinWith ['-'] ((splitOnChar '-' name.toList).take 3)) ++
      "-" ++ extractVersionFromPath name = name := by
  have hbase := basename_eq_self name hslash
  set parts := splitOnChar '-' name.toList with hparts
  have hnotlt : ¬parts.length < 4 := by omega
  have hver : extractVersionFromPath name =
      String.mk (joinWith ['-'] (parts.drop 3)) := by
    unfold extractVersionFromPath
    rw [hbase]
    simp only [← hparts]
    rw [if_neg hnotlt]
  rw [hver]
  have htake : (parts.take 3) ≠ [] := by
    intro h0
    have := List.length_take 3 parts
    rw [h0] at this
    simp at this
    omega
  have hdrop : (parts.drop 3) ≠ [] := take_append_drop_ne_nil parts 3 (by omega)
  have hjoin : joinWith ['-'] (parts.take 3) ++ ['-'] ++
      joinWith ['-'] (parts.drop 3) = name.toList := by
    rw [← joinWith_append ['-'] (parts.take 3) (parts.drop 3) htake hdrop,
      List.take_append_drop, hparts, joinWith_splitOnChar]
  have : String.mk (joinWith ['-'] (parts.take 3)) ++ "-" ++
      String.mk (joinWith ['-'] (parts.drop 3)) =
      String.mk (joinWith ['-'] (parts.take 3) ++ ['-'] ++
        joinWith ['-'] (parts.drop 3)) := rfl
  rw [this, hjoin]
  cases name
  rfl

/-- Witness for C8 at a concrete conforming name whose version tail
contains hyphens. -/
theorem decode_reconstruct_roundtrip_witness :
    '/' ∉ "zig-linux-x86_64-0.13.0-dev.12+abc".toList ∧
    4 ≤ (splitOnChar '-' "zig-linux-x86_64-0.13.0-dev.12+abc".toList).length ∧
    String.mk (joinWith ['-']
        ((splitOnChar '-' "zig-linux-x86_64-0.13.0-dev.12+abc".toList).take 3)) ++
      "-" ++ extractVersionFromPath "zig-linux-x86_64-0.13.0-dev.12+abc" =
      "zig-linux-x86_64-0.13.0-dev.12+abc" :=
  ⟨by decide, by decide,
    decode_reconstruct_roundtrip "zig-linux-x86_64-0.13.0-dev.12+abc"
      (by decide) (by decide)⟩

end ZigInstall

namespace ZigInstall

/-! ## Retention planner lemmas -/

theorem mem_keepLoop_not_current (k : Int) (l : List VersionInfo) :
    ∀ (c : Int) (v : VersionInfo), v ∈ keepLoop k l c → v.isCurrent = false := by
  induction l with
  | nil => intro c v h; simp [keepLoop] at h
  | cons x xs ih =>
    intro c v h
    by_cases hc : x.isCurrent
    · rw [keepLoop, if_pos hc] at h
      exact ih c v h
    · rw [keepLoop, if_neg hc] at h
      by_cases hk : c < k
      · rw [if_pos hk] at h
        exact ih (c + 1) v h
      · rw [if_neg hk] at h
        rcases List.mem_cons.mp h with rfl | h'
        · exact Bool.not_eq_true _ |>.mp hc
        · exact ih c v h'

/-- The removal loop is `drop` of the remaining budget over the
non-current records, in order. -/
theorem keepLoop_eq_drop (k : Int) (l : List VersionInfo) :
    ∀ (c : Int), c ≤ k →
      keepLoop k l c =
        (l.filter fun v => !v.isCurrent).drop (k - c).toNat := by
  induction l with
  | nil => intro c _; simp [keepLoop]
  | cons x xs ih =>
    intro c hc
    by_cases hcur : x.isCurrent
    · rw [keepLoop, if_pos hcur, List.filter_cons_of_neg (by simp [hcur])]
      exact ih c hc
    · rw [keepLoop, if_neg hcur, List.filter_cons_of_pos (by simp [hcur])]
      by_cases hk : c < k
      · rw [if_pos hk, ih (c + 1) (by omega)]
        have : (k - c).toNat = (k - (c + 1)).toNat + 1 := by omega
        rw [this, List.drop_succ_cons]
      · rw [if_neg hk, ih c hc]
        have h0 : (k - c).toNat = 0 := by omega
        rw [h0, List.drop_zero, List.drop_zero]

theorem insertByDate_perm (v : VersionInfo) (l : List VersionInfo) :
    List.Perm (insertByDate v l) (v :: l) := by
  induction l with
  | nil => exact List.Perm.refl _
  | cons w ws ih =>
    by_cases h : v.installDate > w.installDate
    · rw [insertByDate, if_pos h]
    · rw [insertByDate, if_neg h]
      exact (ih.cons w).trans (List.Perm.swap v w ws)

theorem sortByDateDesc_perm (l : List VersionInfo) :
    List.Perm (sortByDateDesc l) l := by
  induction l with
  | nil => exact List.Perm.refl _
  | cons x xs ih =>
    exact (insertByDate_perm x (sortByDateDesc xs)).trans (ih.cons x)

theorem mem_sortByDateDesc (v : VersionInfo) (l : List VersionInfo) :
    v ∈ sortByDateDesc l ↔ v ∈ l :=
  (sortByDateDesc_perm l).mem_iff

/-! Concrete records for the spec's retention example: four records with
distinct timestamps whose newest is active. -/

def demoR1 : VersionInfo :=
  { version := "0.10.1", path := "/opt/zig/zig-linux-x86_64-0.10.1",
    size := 100, installDate := 1, isCurrent := false }

def demoR2 : VersionInfo :=
  { version := "0.11.0", path := "/opt/zig/zig-linux-x86_64-0.11.0",
    size := 200, installDate := 2, isCurrent := false }

def demoR3 : VersionInfo :=
  { version := "0.12.0", path := "/opt/zig/zig-linux-x86_64-0.12.0",
    size := 300, installDate := 3, isCurrent := false }

def demoR4 : VersionInfo :=
  { version := "0.13.0", path := "/opt/zig/zig-linux-x86_64-0.13.0",
    size := 400, installDate := 4, isCurrent := true }

def demoRecords : List VersionInfo := [demoR2, demoR4, demoR1, demoR3]

end ZigInstall

namespace ZigInstall

/-- **C3.** For every list of version records and every `keepLast >= 0`,
the removal set returned by `filterVersionsToKeep` contains no record
with `isCurrent = true`: the active record is never proposed for
removal, regardless of retention parameters. -/
theorem planRemovals_never_removes_active (versions : List VersionInfo)
    (keepLast : Int) (v : VersionInfo) (hk : 0 ≤ keepLast)
    (hv : v ∈ filterVersionsToKeep versions keepLast) :
    v.isCurrent = false := by
  unfold filterVersionsToKeep at hv
  by_cases h0 : keepLast ≤ 0
  · rw [if_pos h0] at hv
    simp at hv
  · rw [if_neg h0] at hv
    exact mem_keepLoop_not_current keepLast (sortByDateDesc versions) 0 v hv

/-- Witness for C3 at a concrete input: with `keepLast = 1` the plan
removes `demoR1`, which indeed is not active. -/
theorem planRemovals_never_removes_active_witness :
    (0 : Int) ≤ 1 ∧ demoR1 ∈ filterVersionsToKeep demoRecords 1 ∧
      demoR1.isCurrent = false :=
  ⟨by decide, by decide,
    planRemovals_never_removes_active demoRecords 1 demoR1 (by decide) (by decide)⟩

/-- **C4.** `filterVersionsToKeep` computes exactly the spec's
partition: empty for `keepLast <= 0`; otherwise, after sorting by
install date descending and excluding the active record (which does not
count against the budget), the first `keepLast` non-active records are
retained and every later non-active record is removed; for the spec's
4-record example with the newest record active, `keepLast = 1` removes
exactly the two oldest non-active records; and the removal set is empty
whenever `keepLast` is at least the number of non-active records. -/
theorem planRemovals_partition :
    (∀ (versions : List VersionInfo) (k : Int), k ≤ 0 →
      filterVersionsToKeep versions k = []) ∧
    (∀ (versions : List VersionInfo) (k : Int), 0 < k →
      filterVersionsToKeep versions k =
        ((sortByDateDesc versions).filter fun v => !v.isCurrent).drop k.toNat) ∧
    (filterVersionsToKeep demoRecords 1 = [demoR2, demoR1]) ∧
    (∀ (versions : List VersionInfo) (k : Int), 0 ≤ k →
      ((versions.filter fun v => !v.isCurrent).length : Int) ≤ k →
      filterVersionsToKeep versions k = []) := by
  refine ⟨?_, ?_, by decide, ?_⟩
  · intro versions k hk
    unfold filterVersionsToKeep
    rw [if_pos hk]
  · intro versions k hk
    unfold filterVersionsToKeep
    rw [if_neg (by omega), keepLoop_eq_drop k _ 0 (by omega)]
    congr 1
    omega
  · intro versions k hk0 hlen
    by_cases hk : k ≤ 0
    · unfold filterVersionsToKeep
      rw [if_pos hk]
    · unfold filterVersionsToKeep
      rw [if_neg hk, keepLoop_eq_drop k _ 0 (by omega)]
      apply List.drop_eq_nil_of_le
      have hperm : List.Perm
          ((sortByDateDesc versions).filter fun v => !v.isCurrent)
          (versions.filter fun v => !v.isCurrent) :=
        (sortByDateDesc_perm versions).filter _
      rw [hperm.length_eq]
      omega

/-- Witness for C4, discharging each hypothesis at concrete inputs. -/
theorem planRemovals_partition_witness :
    filterVersionsToKeep demoRecords 0 = [] ∧
    filterVersionsToKeep demoRecords 2 =
      ((sortByDateDesc demoRecords).filter fun v => !v.isCurrent).drop
        (2 : Int).toNat ∧
    filterVersionsToKeep demoRecords 3 = [] :=
  ⟨planRemovals_partition.1 demoRecords 0 (by decide),
   planRemovals_partition.2.1 demoRecords 2 (by decide),
   planRemovals_partition.2.2.2 demoRecords 3 (by decide) (by decide)⟩

end ZigInstall

namespace ZigInstall

/-! ## Scanner lemmas -/

mutual

/-- A failing node anywhere in the subtree aborts the size walk:
`CalculateDirectorySize` does not suppress per-file errors. -/
theorem walkSize_error_of_hasBroken :
    ∀ t : FileTree, hasBroken t = true → walkSize t = .error ()
  | .file _, h => by simp [hasBroken] at h
  | .broken, _ => rfl
  | .dir cs, h => by
    rw [walkSize]
    exact walkSizeList_error_of_hasBrokenList cs (by simpa [hasBroken] using h)

theorem walkSizeList_error_of_hasBrokenList :
    ∀ ts : List FileTree, hasBrokenList ts = true → walkSizeList ts = .error ()
  | [], h => by simp [hasBrokenList] at h
  | t :: ts, h => by
    rw [walkSizeList]
    rcases Bool.or_eq_true_iff.mp (by simpa [hasBrokenList] using h) with h1 | h2
    · rw [walkSize_error_of_hasBroken t h1]
    · cases hw : walkSize t with
      | error e => rfl
      | ok s => rw [walkSizeList_error_of_hasBrokenList ts h2]

end

/-- A qualifying entry always produces a record, whose size falls back
to `0` when the size walk fails. -/
theorem scanEntry_eq_some (w : World) (zigDir cur : String) (e : DirEntry)
    (hdir : e.isDir = true)
    (hpre : leadsWith "zig-".toList e.name.toList = true)
    (hver : extractVersionFromPath (joinPath zigDir e.name) ≠ "")
    (mt : Int) (hmt : e.modTime = some mt) :
    scanEntry w zigDir cur e =
      some { version := extractVersionFromPath (joinPath zigDir e.name),
             path := joinPath zigDir e.name,
             size := match CalculateDirectorySize w (joinPath zigDir e.name) with
               | .error _ => 0
               | .ok s => s,
             installDate := mt,
             isCurrent := extractVersionFromPath (joinPath zigDir e.name) == cur } := by
  unfold scanEntry
  simp only [hdir, hpre, Bool.not_true, Bool.false_eq_true, if_false, hmt]
  rw [if_neg hver]

def wSizeErr : World :=
  { entries := .ok [{ name := "zig-linux-x86_64-0.13.0", isDir := true,
                      modTime := some 5 }],
    readlinkZig := .notExist,
    fs := fun _ => .dir [.broken, .file 7],
    binaryExists := fun _ => true,
    removeOk := true, symlinkOk := true,
    runOutput := none, events := [] }

end ZigInstall

namespace ZigInstall

/-- **C1, counterexample.** A concrete installation root with one
candidate whose recursive size computation fails (the walk hits a
failing node): `CalculateDirectorySize` returns an error, yet
`ScanInstalledVersions` does NOT abort — it returns the record sequence,
with the candidate's size replaced by `0`. -/
theorem scan_size_error_not_fatal_cex :
    CalculateDirectorySize wSizeErr "/opt/zig/zig-linux-x86_64-0.13.0" =
      .error () ∧
    ScanInstalledVersions wSizeErr "/opt/zig" =
      .ok [{ version := "0.13.0", path := "/opt/zig/zig-linux-x86_64-0.13.0",
             size := 0, installDate := 5, isCurrent := false }] := by
  exact ⟨rfl, rfl⟩

/-- **C1, amended.** A filesystem error during the recursive size walk
aborts that `CalculateDirectorySize` call with an error, but the scan
suppresses it rather than failing: whenever the root listing succeeds
the scan returns a record sequence, and a candidate whose size
computation fails is still included, with `size = 0`. -/
theorem scan_size_error_suppressed :
    (∀ t : FileTree, hasBroken t = true → walkSize t = .error ()) ∧
    (∀ (w : World) (zigDir : String) (es : List DirEntry),
      w.entries = .ok es →
      ∃ vs, ScanInstalledVersions w zigDir = .ok vs) ∧
    (∀ (w : World) (zigDir : String) (es : List DirEntry) (e : DirEntry),
      w.entries = .ok es → e ∈ es →
      e.isDir = true →
      leadsWith "zig-".toList e.name.toList = true →
      extractVersionFromPath (joinPath zigDir e.name) ≠ "" →
      ∀ mt : Int, e.modTime = some mt →
      CalculateDirectorySize w (joinPath zigDir e.name) = .error () →
      ∃ vs, ScanInstalledVersions w zigDir = .ok vs ∧
        { version := extractVersionFromPath (joinPath zigDir e.name),
          path := joinPath zigDir e.name, size := 0, installDate := mt,
          isCurrent := extractVersionFromPath (joinPath zigDir e.name) ==
            currentVersionOrEmpty w : VersionInfo } ∈ vs) := by
  refine ⟨walkSize_error_of_hasBroken, ?_, ?_⟩
  · intro w zigDir es hes
    refine ⟨sortByDateDesc (es.filterMap
      (scanEntry w zigDir (currentVersionOrEmpty w))), ?_⟩
    unfold ScanInstalledVersions
    rw [hes]
  · intro w zigDir es e hes hmem hdir hpre hver mt hmt hsz
    refine ⟨sortByDateDesc (es.filterMap
      (scanEntry w zigDir (currentVersionOrEmpty w))), ?_, ?_⟩
    · unfold ScanInstalledVersions
      rw [hes]
    · rw [mem_sortByDateDesc]
      apply List.mem_filterMap.mpr
      refine ⟨e, hmem, ?_⟩
      rw [scanEntry_eq_some w zigDir (currentVersionOrEmpty w) e hdir hpre hver mt hmt,
        hsz]

/-- Witness for C1's amended statement, at the counterexample world. -/
theorem scan_size_error_suppressed_witness :
    walkSize (.dir [.broken, .file 7]) = .error () ∧
    (∃ vs, ScanInstalledVersions wSizeErr "/opt/zig" = .ok vs ∧
      { version := extractVersionFromPath (joinPath "/opt/zig" "zig-linux-x86_64-0.13.0"),
        path := joinPath "/opt/zig" "zig-linux-x86_64-0.13.0", size := 0,
        installDate := 5,
        isCurrent := extractVersionFromPath (joinPath "/opt/zig" "zig-linux-x86_64-0.13.0") ==
          currentVersionOrEmpty wSizeErr : VersionInfo } ∈ vs) :=
  ⟨scan_size_error_suppressed.1 (.dir [.broken, .file 7]) (by decide),
   scan_size_error_suppressed.2.2 wSizeErr "/opt/zig" _
     { name := "zig-linux-x86_64-0.13.0", isDir := true, modTime := some 5 }
     rfl (by decide) (by decide) (by decide) (by decide) 5 (by decide) rfl⟩

end ZigInstall

namespace ZigInstall

/-- Every record a scan produces is marked active exactly when its
version string equals the resolved current version. -/
theorem scanEntry_isCurrent (w : World) (zigDir cur : String) (e : DirEntry)
    (v : VersionInfo) (h : scanEntry w zigDir cur e = some v) :
    v.isCurrent = (v.version == cur) := by
  unfold scanEntry at h
  dsimp only at h
  split at h
  · exact absurd h (by simp)
  · split at h
    · exact absurd h (by simp)
    · split at h
      · exact absurd h (by simp)
      · split at h
        · exact absurd h (by simp)
        · rw [Option.some_inj] at h
          subst h
          rfl

theorem scan_mem_isCurrent (w : World) (zigDir : String)
    (vs : List VersionInfo) (h : ScanInstalledVersions w zigDir = .ok vs)
    (v : VersionInfo) (hv : v ∈ vs) :
    v.isCurrent = (v.version == currentVersionOrEmpty w) := by
  unfold ScanInstalledVersions at h
  cases hes : w.entries with
  | error e => rw [hes] at h; exact absurd h (by simp)
  | ok es =>
    rw [hes] at h
    rw [Except.ok.injEq] at h
    subst h
    rw [mem_sortByDateDesc] at hv
    obtain ⟨e, _, hsome⟩ := List.mem_filterMap.mp hv
    exact scanEntry_isCurrent w zigDir _ e v hsome

def wDup : World :=
  { entries := .ok
      [{ name := "zig-linux-x86_64-0.13.0", isDir := true, modTime := some 2 },
       { name := "zig-macos-x86_64-0.13.0", isDir := true, modTime := some 1 }],
    readlinkZig := .ok "/opt/zig/zig-linux-x86_64-0.13.0/zig",
    fs := fun _ => .dir [],
    binaryExists := fun _ => true,
    removeOk := true, symlinkOk := true,
    runOutput := none, events := [] }

end ZigInstall

namespace ZigInstall

/-- **C2, counterexample.** Two physically distinct directories that
decode to the same version string as the active link: the scan marks
BOTH records `isCurrent = true`, so a scan result can contain more than
one active record. -/
theorem scan_two_active_records_cex :
    ScanInstalledVersions wDup "/opt/zig" =
      .ok [{ version := "0.13.0", path := "/opt/zig/zig-linux-x86_64-0.13.0",
             size := 0, installDate := 2, isCurrent := true },
           { version := "0.13.0", path := "/opt/zig/zig-macos-x86_64-0.13.0",
             size := 0, installDate := 1, isCurrent := true }] ∧
    ((ScanInstalledVersions wDup "/opt/zig").toOption.getD []).countP
        (fun v => v.isCurrent) = 2 := ⟨rfl, rfl⟩

/-- **C2, amended.** A record is marked active exactly when its version
equals the resolved current version, so any two active records in one
scan result carry the same version string (at most one record per
distinct version is active); when several physically distinct
directories decode to that same version, the scanner reports them as
separate records, each marked active. -/
theorem scan_active_records_share_version (w : World) (zigDir : String)
    (vs : List VersionInfo) (h : ScanInstalledVersions w zigDir = .ok vs)
    (a b : VersionInfo) (ha : a ∈ vs) (hb : b ∈ vs)
    (hca : a.isCurrent = true) (hcb : b.isCurrent = true) :
    a.version = b.version := by
  have h1 := scan_mem_isCurrent w zigDir vs h a ha
  have h2 := scan_mem_isCurrent w zigDir vs h b hb
  rw [hca] at h1
  rw [hcb] at h2
  have e1 : a.version = currentVersionOrEmpty w := eq_of_beq h1.symm
  have e2 : b.version = currentVersionOrEmpty w := eq_of_beq h2.symm
  rw [e1, e2]

/-- Witness for C2's amended statement: both records of the duplicate
world's scan are active, and their versions coincide. -/
theorem scan_active_records_share_version_witness :
    { version := "0.13.0", path := "/opt/zig/zig-linux-x86_64-0.13.0",
      size := 0, installDate := 2, isCurrent := true : VersionInfo }.version =
    { version := "0.13.0", path := "/opt/zig/zig-macos-x86_64-0.13.0",
      size := 0, installDate := 1, isCurrent := true : VersionInfo }.version :=
  scan_active_records_share_version wDup "/opt/zig" _ rfl _ _
    (by decide) (by decide) rfl rfl

end ZigInstall

namespace ZigInstall

/-- **C6, counterexample.** A readlink failure other than "does not
exist" is NOT suppressed by `GetCurrentVersion`: it returns an error to
its caller, contradicting "the error is suppressed at this layer". -/
theorem resolver_other_error_cex :
    GetCurrentVersion .otherError = .error () := rfl

/-- **C6, amended.** `GetCurrentVersion` returns empty with no error
when the active link is missing; any other read failure is returned as
an error to the caller, and it is `ScanInstalledVersions` — the next
layer — that suppresses it, treating it as "no active version known"
and scanning exactly as if the link were absent. -/
theorem resolver_error_suppressed_by_scan :
    (GetCurrentVersion .notExist = .ok "") ∧
    (GetCurrentVersion .otherError = .error ()) ∧
    (∀ (w : World) (zigDir : String), w.readlinkZig = .otherError →
      ScanInstalledVersions w zigDir =
        ScanInstalledVersions { w with readlinkZig := .notExist } zigDir) := by
  refine ⟨rfl, rfl, ?_⟩
  intro w zigDir h
  obtain ⟨es, rl, fsv, be, ro, so, out, ev⟩ := w
  simp only at h
  subst h
  rfl

/-- Witness for C6's amended statement at a concrete world. -/
theorem resolver_error_suppressed_by_scan_witness :
    ScanInstalledVersions
        { entries := .ok [{ name := "zig-linux-x86_64-0.13.0", isDir := true,
                            modTime := some 3 }],
          readlinkZig := .otherError, fs := fun _ => .dir [.file 9],
          binaryExists := fun _ => true, removeOk := true, symlinkOk := true,
          runOutput := none, events := [] } "/opt/zig" =
      ScanInstalledVersions
        { entries := .ok [{ name := "zig-linux-x86_64-0.13.0", isDir := true,
                            modTime := some 3 }],
          readlinkZig := .notExist, fs := fun _ => .dir [.file 9],
          binaryExists := fun _ => true, removeOk := true, symlinkOk := true,
          runOutput := none, events := [] } "/opt/zig" :=
  resolver_error_suppressed_by_scan.2.2
    { entries := .ok [{ name := "zig-linux-x86_64-0.13.0", isDir := true,
                        modTime := some 3 }],
      readlinkZig := .otherError, fs := fun _ => .dir [.file 9],
      binaryExists := fun _ => true, removeOk := true, symlinkOk := true,
      runOutput := none, events := [] } "/opt/zig" rfl

end ZigInstall

namespace ZigInstall

/-! ## Switch engine -/

/-- Concrete world with two installed versions whose newest is active. -/
def wTwo : World :=
  { entries := .ok
      [{ name := "zig-linux-x86_64-0.13.0", isDir := true, modTime := some 2 },
       { name := "zig-linux-x86_64-0.12.0", isDir := true, modTime := some 1 }],
    readlinkZig := .ok "/opt/zig/zig-linux-x86_64-0.13.0/zig",
    fs := fun _ => .dir [.file 10],
    binaryExists := fun _ => true,
    removeOk := true, symlinkOk := true,
    runOutput := some "0.13.0\n", events := [] }

/-- With the binary present, an existing link, and cooperating
filesystem calls, the link update removes the old link and creates the
new one. -/
theorem UpdateZigSymlink_relink (w : World) (versionPath : String)
    (hbin : w.binaryExists (joinPath versionPath "zig") = true)
    (hlink : w.readlinkZig ≠ .notExist)
    (hrm : w.removeOk = true) (hsl : w.symlinkOk = true) :
    UpdateZigSymlink w versionPath =
      ({ w with readlinkZig := .ok (joinPath versionPath "zig"),
                events := (w.events ++ [.removedLink]) ++
                  [.createdLink (joinPath versionPath "zig")] }, none) := by
  obtain ⟨es, rl, fsv, be, ro, so, out, ev⟩ := w
  simp only at hbin hrm hsl hlink
  subst hrm
  subst hsl
  unfold UpdateZigSymlink
  dsimp only
  rw [hbin]
  cases rl with
  | notExist => exact absurd rfl hlink
  | otherError => rfl
  | ok t => rfl

end ZigInstall

namespace ZigInstall

/-- **C5.** Switching to an installed target whose version equals the
currently-active version does not short-circuit as a no-op: provided
the usual switch preconditions hold (at least two installed versions,
target installed, its binary present, the filesystem calls succeed, the
verification output matches), `SwitchToVersion` succeeds by removing the
existing active link and recreating it at the target's binary. -/
theorem switch_same_version_relinks (w : World) (zigDir targetVersion : String)
    (vs : List VersionInfo) (tv : VersionInfo)
    (hscan : ScanInstalledVersions w zigDir = .ok vs)
    (hlen : 2 ≤ vs.length)
    (hfind : findTarget vs targetVersion = some tv)
    (hactive : currentVersionOrEmpty w = targetVersion)
    (hbin : w.binaryExists (joinPath tv.path "zig") = true)
    (hlink : w.readlinkZig ≠ .notExist)
    (hrm : w.removeOk = true) (hsl : w.symlinkOk = true)
    (out : String) (hout : w.runOutput = some out)
    (hver : containsSub (trimSpace out.toList) targetVersion.toList = true) :
    ∃ w', SwitchToVersion w zigDir targetVersion = (w', none) ∧
      w'.events = w.events ++
        [.removedLink, .createdLink (joinPath tv.path "zig")] ∧
      w'.readlinkZig = .ok (joinPath tv.path "zig") := by
  unfold SwitchToVersion
  rw [hscan]
  dsimp only
  rw [if_neg (by omega), if_neg (by omega), hfind]
  dsimp only
  rw [UpdateZigSymlink_relink w tv.path hbin hlink hrm hsl]
  dsimp only
  have hv : VerifySwitch
      { w with readlinkZig := .ok (joinPath tv.path "zig"),
               events := (w.events ++ [.removedLink]) ++
                 [.createdLink (joinPath tv.path "zig")] } targetVersion =
      none := by
    unfold VerifySwitch
    dsimp only
    rw [hout]
    dsimp only
    rw [hver]
    rfl
  rw [hv]
  exact ⟨_, rfl, by simp, rfl⟩

/-- Witness for C5: a two-version world whose active version `0.13.0`
is also the requested target. -/
theorem switch_same_version_relinks_witness :
    ∃ w', SwitchToVersion wTwo "/opt/zig" "0.13.0" = (w', none) ∧
      w'.events = wTwo.events ++
        [.removedLink,
         .createdLink (joinPath "/opt/zig/zig-linux-x86_64-0.13.0" "zig")] ∧
      w'.readlinkZig = .ok (joinPath "/opt/zig/zig-linux-x86_64-0.13.0" "zig") :=
  switch_same_version_relinks wTwo "/opt/zig" "0.13.0"
    [{ version := "0.13.0", path := "/opt/zig/zig-linux-x86_64-0.13.0",
       size := 10, installDate := 2, isCurrent := true },
     { version := "0.12.0", path := "/opt/zig/zig-linux-x86_64-0.12.0",
       size := 10, installDate := 1, isCurrent := false }]
    { version := "0.13.0", path := "/opt/zig/zig-linux-x86_64-0.13.0",
      size := 10, installDate := 2, isCurrent := true }
    rfl (by decide) (by decide) (by decide) (by decide) (by decide)
    (by decide) (by decide) "0.13.0\n" rfl (by decide)

end ZigInstall

namespace ZigInstall

/-- **C7.** When the target's installation directory lacks the expected
`zig` binary, the switch fails with `artifactMissing` before any
mutation: `UpdateZigSymlink` returns the world unchanged, and so does
`SwitchToVersion` whenever its scan-and-lookup phase reaches the link
update — the active link, whatever its prior state, is untouched. -/
theorem switch_artifact_missing_untouched :
    (∀ (w : World) (versionPath : String),
      w.binaryExists (joinPath versionPath "zig") = false →
      UpdateZigSymlink w versionPath = (w, some .artifactMissing)) ∧
    (∀ (w : World) (zigDir targetVersion : String)
      (vs : List VersionInfo) (tv : VersionInfo),
      ScanInstalledVersions w zigDir = .ok vs → 2 ≤ vs.length →
      findTarget vs targetVersion = some tv →
      w.binaryExists (joinPath tv.path "zig") = false →
      SwitchToVersion w zigDir targetVersion = (w, some .artifactMissing)) := by
  have hupd : ∀ (w : World) (versionPath : String),
      w.binaryExists (joinPath versionPath "zig") = false →
      UpdateZigSymlink w versionPath = (w, some .artifactMissing) := by
    intro w versionPath hbin
    unfold UpdateZigSymlink
    dsimp only
    rw [hbin]
    rfl
  refine ⟨hupd, ?_⟩
  intro w zigDir targetVersion vs tv hscan hlen hfind hbin
  unfold SwitchToVersion
  rw [hscan]
  dsimp only
  rw [if_neg (by omega), if_neg (by omega), hfind]
  dsimp only
  rw [hupd w tv.path hbin]

/-- Witness for C7: a two-version world whose target directory lacks the
binary. -/
theorem switch_artifact_missing_untouched_witness :
    SwitchToVersion
        { wTwo with binaryExists := fun _ => false } "/opt/zig" "0.12.0" =
      ({ wTwo with binaryExists := fun _ => false }, some .artifactMissing) :=
  switch_artifact_missing_untouched.2
    { wTwo with binaryExists := fun _ => false } "/opt/zig" "0.12.0"
    [{ version := "0.13.0", path := "/opt/zig/zig-linux-x86_64-0.13.0",
       size := 10, installDate := 2, isCurrent := true },
     { version := "0.12.0", path := "/opt/zig/zig-linux-x86_64-0.12.0",
       size := 10, installDate := 1, isCurrent := false }]
    { version := "0.12.0", path := "/opt/zig/zig-linux-x86_64-0.12.0",
      size := 10, installDate := 1, isCurrent := false }
    rfl (by decide) (by decide) rfl

end ZigInstall

namespace ZigInstall

/-- **C10.** `SwitchToVersion` returns an error without modifying the
active link whenever fewer than two versions are installed — including
when the single installed version is the requested target and is already
active — so the link update (even an idempotent re-link) is only
reachable with at least two installed versions. -/
theorem switch_requires_two_versions (w : World)
    (zigDir targetVersion : String) (vs : List VersionInfo)
    (hscan : ScanInstalledVersions w zigDir = .ok vs)
    (hlen : vs.length < 2) :
    (SwitchToVersion w zigDir targetVersion).1 = w ∧
    ((SwitchToVersion w zigDir targetVersion).2 = some .noVersions ∨
      (SwitchToVersion w zigDir targetVersion).2 = some .onlyOne) := by
  unfold SwitchToVersion
  rw [hscan]
  dsimp only
  have h01 : vs.length = 0 ∨ vs.length = 1 := by omega
  rcases h01 with h0 | h1
  · rw [if_pos h0]
    exact ⟨rfl, Or.inl rfl⟩
  · rw [if_neg (by omega), if_pos h1]
    exact ⟨rfl, Or.inr rfl⟩

/-- Witness for C10: a single-version world where the lone version is
the requested target and is already active. -/
theorem switch_requires_two_versions_witness :
    (SwitchToVersion
        { entries := .ok [{ name := "zig-linux-x86_64-0.13.0", isDir := true,
                            modTime := some 2 }],
          readlinkZig := .ok "/opt/zig/zig-linux-x86_64-0.13.0/zig",
          fs := fun _ => .dir [.file 10], binaryExists := fun _ => true,
          removeOk := true, symlinkOk := true, runOutput := some "0.13.0\n",
          events := [] } "/opt/zig" "0.13.0").1 =
      { entries := .ok [{ name := "zig-linux-x86_64-0.13.0", isDir := true,
                          modTime := some 2 }],
        readlinkZig := .ok "/opt/zig/zig-linux-x86_64-0.13.0/zig",
        fs := fun _ => .dir [.file 10], binaryExists := fun _ => true,
        removeOk := true, symlinkOk := true, runOutput := some "0.13.0\n",
        events := [] } ∧
    ((SwitchToVersion
        { entries := .ok [{ name := "zig-linux-x86_64-0.13.0", isDir := true,
                            modTime := some 2 }],
          readlinkZig := .ok "/opt/zig/zig-linux-x86_64-0.13.0/zig",
          fs := fun _ => .dir [.file 10], binaryExists := fun _ => true,
          removeOk := true, symlinkOk := true, runOutput := some "0.13.0\n",
          events := [] } "/opt/zig" "0.13.0").2 = some .noVersions ∨
      (SwitchToVersion
        { entries := .ok [{ name := "zig-linux-x86_64-0.13.0", isDir := true,
                            modTime := some 2 }],
          readlinkZig := .ok "/opt/zig/zig-linux-x86_64-0.13.0/zig",
          fs := fun _ => .dir [.file 10], binaryExists := fun _ => true,
          removeOk := true, symlinkOk := true, runOutput := some "0.13.0\n",
          events := [] } "/opt/zig" "0.13.0").2 = some .onlyOne) :=
  switch_requires_two_versions
    { entries := .ok [{ name := "zig-linux-x86_64-0.13.0", isDir := true,
                        modTime := some 2 }],
      readlinkZig := .ok "/opt/zig/zig-linux-x86_64-0.13.0/zig",
      fs := fun _ => .dir [.file 10], binaryExists := fun _ => true,
      removeOk := true, symlinkOk := true, runOutput := some "0.13.0\n",
      events := [] } "/opt/zig" "0.13.0"
    [{ version := "0.13.0", path := "/opt/zig/zig-linux-x86_64-0.13.0",
       size := 10, installDate := 2, isCurrent := true }]
    rfl (by decide)

end ZigInstall

namespace ZigInstall

/-! ## Detector lemmas -/

theorem detectDirs_eq_none (env : DetectEnv) (ds : List String)
    (h : ∀ d ∈ ds, ¬(env.statIsDir d = true ∧ env.readDirNonEmpty d = true)) :
    detectDirs env ds = none := by
  induction ds with
  | nil => rfl
  | cons d ds ih =>
    rw [detectDirs]
    rw [if_neg]
    · exact ih fun x hx => h x (List.mem_cons_of_mem d hx)
    · intro hc
      rcases Bool.and_eq_true_iff.mp hc with ⟨h1, h2⟩
      exact h d (List.mem_cons_self d ds) ⟨h1, h2⟩

/-- A link matching the symlink check makes the link loop return the
parent directory of some matching link's target. -/
theorem detectLinks_eq_some (env : DetectEnv) (ls : List String)
    (l : String) (hl : l ∈ ls) (t : String)
    (hlstat : env.lstatOk l = true) (hrd : env.readlink l = some t)
    (hpfx : legacyTarget t = true) :
    ∃ l' ∈ ls, ∃ t', env.lstatOk l' = true ∧ env.readlink l' = some t' ∧
      legacyTarget t' = true ∧ detectLinks env ls = some (dirname t') := by
  induction ls with
  | nil => exact absurd hl (List.not_mem_nil l)
  | cons x xs ih =>
    by_cases hx : env.lstatOk x = true
    · cases hrx : env.readlink x with
      | some tx =>
        by_cases hpx : legacyTarget tx = true
        · refine ⟨x, List.mem_cons_self x xs, tx, hx, hrx, hpx, ?_⟩
          rw [detectLinks, if_pos hx, hrx]
          dsimp only
          rw [if_pos hpx]
        · have hlx : l ∈ xs := by
            rcases List.mem_cons.mp hl with rfl | hm
            · rw [hrx] at hrd
              rw [Option.some_inj] at hrd
              subst hrd
              exact absurd hpfx hpx
            · exact hm
          obtain ⟨l', hl', t', h1, h2, h3, h4⟩ := ih hlx
          refine ⟨l', List.mem_cons_of_mem x hl', t', h1, h2, h3, ?_⟩
          rw [detectLinks, if_pos hx, hrx]
          dsimp only
          rw [if_neg hpx, h4]
      | none =>
        have hlx : l ∈ xs := by
          rcases List.mem_cons.mp hl with rfl | hm
          · rw [hrx] at hrd
            exact absurd hrd (by simp)
          · exact hm
        obtain ⟨l', hl', t', h1, h2, h3, h4⟩ := ih hlx
        refine ⟨l', List.mem_cons_of_mem x hl', t', h1, h2, h3, ?_⟩
        rw [detectLinks, if_pos hx, hrx, h4]
    · have hlx : l ∈ xs := by
        rcases List.mem_cons.mp hl with rfl | hm
        · exact absurd hlstat hx
        · exact hm
      obtain ⟨l', hl', t', h1, h2, h3, h4⟩ := ih hlx
      refine ⟨l', List.mem_cons_of_mem x hl', t', h1, h2, h3, ?_⟩
      rw [detectLinks, if_neg hx, h4]

theorem detectLinks_eq_none (env : DetectEnv) (ls : List String)
    (h : ∀ l ∈ ls, env.lstatOk l = true →
      ∀ t, env.readlink l = some t → legacyTarget t = false) :
    detectLinks env ls = none := by
  induction ls with
  | nil => rfl
  | cons x xs ih =>
    have htail := ih fun l hl => h l (List.mem_cons_of_mem x hl)
    by_cases hx : env.lstatOk x = true
    · cases hrx : env.readlink x with
      | some tx =>
        have := h x (List.mem_cons_self x xs) hx tx hrx
        rw [detectLinks, if_pos hx, hrx]
        dsimp only
        rw [if_neg (by simp [this]), htail]
      | none => rw [detectLinks, if_pos hx, hrx, htail]
    · rw [detectLinks, if_neg hx, htail]

end ZigInstall

namespace ZigInstall

/-- **C9.** When no legacy well-known directory passes the
existing-non-empty-directory check but one of the fixed legacy bin
symlink paths exists and its readable target starts with a legacy
prefix, the detector reports `found = true` together with the parent
directory of a matching link's target; when neither the directory check
nor the symlink check matches anything, it reports `("", false)`. -/
theorem detect_symlink_fallback :
    (∀ (env : DetectEnv) (l t : String),
      (∀ d ∈ GetSystemZigDirs env.goos,
        ¬(env.statIsDir d = true ∧ env.readDirNonEmpty d = true)) →
      l ∈ systemBinLinks → env.lstatOk l = true →
      env.readlink l = some t → legacyTarget t = true →
      ∃ l' ∈ systemBinLinks, ∃ t',
        env.lstatOk l' = true ∧ env.readlink l' = some t' ∧
        legacyTarget t' = true ∧
        DetectSystemInstallation env = (dirname t', true)) ∧
    (∀ env : DetectEnv,
      (∀ d ∈ GetSystemZigDirs env.goos,
        ¬(env.statIsDir d = true ∧ env.readDirNonEmpty d = true)) →
      (∀ l ∈ systemBinLinks, env.lstatOk l = true →
        ∀ t, env.readlink l = some t → legacyTarget t = false) →
      DetectSystemInstallation env = ("", false)) := by
  constructor
  · intro env l t hdirs hl hlstat hrd hpfx
    obtain ⟨l', hl', t', h1, h2, h3, h4⟩ :=
      detectLinks_eq_some env systemBinLinks l hl t hlstat hrd hpfx
    refine ⟨l', hl', t', h1, h2, h3, ?_⟩
    unfold DetectSystemInstallation
    rw [detectDirs_eq_none env _ hdirs, h4]
  · intro env hdirs hlinks
    unfold DetectSystemInstallation
    rw [detectDirs_eq_none env _ hdirs, detectLinks_eq_none env _ hlinks]

/-- Witness for C9: an environment with no qualifying system directory
but a legacy symlink at `/usr/local/bin/zig` targeting `/opt/zig/zig`. -/
theorem detect_symlink_fallback_witness :
    ∃ l' ∈ systemBinLinks, ∃ t',
      (fun l => l == "/usr/local/bin/zig") l' = true ∧
      (fun l => if l == "/usr/local/bin/zig" then some "/opt/zig/zig"
                else none) l' = some t' ∧
      legacyTarget t' = true ∧
      DetectSystemInstallation
        { goos := "linux", statIsDir := fun _ => false,
          readDirNonEmpty := fun _ => false,
          lstatOk := fun l => l == "/usr/local/bin/zig",
          readlink := fun l => if l == "/usr/local/bin/zig"
            then some "/opt/zig/zig" else none } = (dirname t', true) :=
  detect_symlink_fallback.1
    { goos := "linux", statIsDir := fun _ => false,
      readDirNonEmpty := fun _ => false,
      lstatOk := fun l => l == "/usr/local/bin/zig",
      readlink := fun l => if l == "/usr/local/bin/zig"
        then some "/opt/zig/zig" else none }
    "/usr/local/bin/zig" "/opt/zig/zig"
    (by decide) (by decide) (by decide) (by decide) (by decide)

end ZigInstall
